import Mathlib

/-!
Verification of the sqljsonutil RowsWriter (streaming sql.Rows to JSON).

The Go source is shallowly embedded: Go byte strings become `List Nat`
(each element one byte), the mutable `bytes.Buffer` row buffer becomes an
explicit `List Nat` threaded through the functions, the `RowsWriter`
struct becomes a Lean structure, and fallible operations return a value
paired with `Option WErr`.  Go nil slices are distinguished from empty
slices with `Option`, because the source branches on `rw.colNames == nil`.
-/

namespace Sqljsonutil

/-- Bytes of an ASCII string literal, one `Nat` per character. -/
def strBytes (s : String) : List Nat := s.data.map Char.toNat

/-- Model of the method `trimnl`: truncate every trailing newline byte
from the buffer (the Go loop truncates while the last byte is `\n`). -/
def trimnl (l : List Nat) : List Nat :=
  (l.reverse.dropWhile (fun b => b == 0x0a)).reverse

theorem dropWhile_append_of_ne_nil {p : Nat → Bool} {l₁ l₂ : List Nat}
    (h : l₁.dropWhile p ≠ []) :
    (l₁ ++ l₂).dropWhile p = l₁.dropWhile p ++ l₂ := by
  induction l₁ with
  | nil => exact absurd rfl h
  | cons a t ih =>
    by_cases hp : p a
    · rw [List.dropWhile_cons_of_pos hp] at h
      simp only [List.cons_append, List.dropWhile_cons_of_pos hp, ih h]
    · simp only [List.cons_append, List.dropWhile_cons_of_neg hp]

theorem dropWhile_append_of_nil {p : Nat → Bool} {l₁ l₂ : List Nat}
    (h : l₁.dropWhile p = []) :
    (l₁ ++ l₂).dropWhile p = l₂.dropWhile p := by
  induction l₁ with
  | nil => simp
  | cons a t ih =>
    by_cases hp : p a
    · rw [List.dropWhile_cons_of_pos hp] at h
      simp only [List.cons_append, List.dropWhile_cons_of_pos hp, ih h]
    · rw [List.dropWhile_cons_of_neg hp] at h
      exact absurd h (by simp)

/-- Appending bytes whose trimmed form is nonempty: `trimnl` never reaches
into the prefix of the buffer. -/
theorem trimnl_append_of_ne_nil {a b : List Nat} (h : trimnl b ≠ []) :
    trimnl (a ++ b) = a ++ trimnl b := by
  unfold trimnl at *
  rw [List.reverse_append, dropWhile_append_of_ne_nil, List.reverse_append,
    List.reverse_reverse]
  intro hc
  exact h (by rw [hc]; rfl)

/-- Appending bytes that trim away entirely leaves `trimnl` of the prefix. -/
theorem trimnl_append_of_nil {a b : List Nat} (h : trimnl b = []) :
    trimnl (a ++ b) = trimnl a := by
  unfold trimnl at *
  rw [List.reverse_append, dropWhile_append_of_nil]
  exact List.reverse_eq_nil_iff.mp h

/-- A buffer whose last byte is not a newline is untouched by `trimnl`. -/
theorem trimnl_snoc_of_ne {l : List Nat} {c : Nat} (h : c ≠ 0x0a) :
    trimnl (l ++ [c]) = l ++ [c] := by
  unfold trimnl
  rw [List.reverse_append]
  have hd : ((c :: l.reverse).dropWhile (fun b => b == 0x0a)) = c :: l.reverse :=
    List.dropWhile_cons_of_neg (by simp [h])
  simp only [List.reverse_cons, List.reverse_nil, List.nil_append,
    List.singleton_append, hd]
  simp

/-- Lower bound for the second byte of a multi-byte UTF-8 sequence,
indexed by the first byte (the acceptRanges table of unicode/utf8). -/
def utf8Lo (b : Nat) : Nat :=
  if b == 0xe0 then 0xa0 else if b == 0xf0 then 0x90 else 0x80

/-- Upper bound for the second byte of a multi-byte UTF-8 sequence,
indexed by the first byte (the acceptRanges table of unicode/utf8). -/
def utf8Hi (b : Nat) : Nat :=
  if b == 0xed then 0x9f else if b == 0xf4 then 0x8f else 0xbf

/-- Model of unicode/utf8 DecodeRune on the byte sequence `b :: rest`:
returns the decoded code point, the consumed bytes, and the remaining
bytes.  Invalid or incomplete sequences decode to the replacement
character 0xfffd consuming one byte, exactly as in Go.  Go `range` over a
string and the encoding/json string encoder both step through a string
with this decoder. -/
def decodeRuneAux (b : Nat) (rest : List Nat) : Nat × List Nat × List Nat :=
  if b < 0x80 then (b, [b], rest)
  else if b < 0xc2 || 0xf4 < b then (0xfffd, [b], rest)
  else match rest with
  | [] => (0xfffd, [b], rest)
  | b1 :: r1 =>
    if b1 < utf8Lo b || utf8Hi b < b1 then (0xfffd, [b], b1 :: r1)
    else if b < 0xe0 then ((b % 0x20) * 0x40 + b1 % 0x40, [b, b1], r1)
    else match r1 with
    | [] => (0xfffd, [b], b1 :: r1)
    | b2 :: r2 =>
      if b2 < 0x80 || 0xbf < b2 then (0xfffd, [b], b1 :: b2 :: r2)
      else if b < 0xf0 then
        ((b % 0x10) * 0x1000 + (b1 % 0x40) * 0x40 + b2 % 0x40, [b, b1, b2], r2)
      else match r2 with
      | [] => (0xfffd, [b], b1 :: b2 :: r2)
      | b3 :: r3 =>
        if b3 < 0x80 || 0xbf < b3 then (0xfffd, [b], b1 :: b2 :: b3 :: r3)
        else ((b % 0x8) * 0x40000 + (b1 % 0x40) * 0x1000 + (b2 % 0x40) * 0x40
                + b3 % 0x40, [b, b1, b2, b3], r3)

theorem decodeRuneAux_rem_length (b : Nat) (rest : List Nat) :
    (decodeRuneAux b rest).2.2.length ≤ rest.length := by
  unfold decodeRuneAux
  repeat' split
  all_goals try simp only [List.length_cons]
  all_goals omega

/-- A byte at or above 0x80 always decodes to a rune above 0x7f: a valid
multi-byte sequence encodes a code point at least 0x80, and an invalid
byte decodes to the replacement character. -/
theorem decodeRuneAux_rune_gt (b : Nat) (rest : List Nat) (hb : 0x80 ≤ b) :
    0x7f < (decodeRuneAux b rest).1 := by
  unfold decodeRuneAux
  split
  · omega
  rename_i hge80
  split
  · norm_num
  rename_i hrange
  simp only [Bool.or_eq_true, decide_eq_true_eq, not_or, not_lt] at hrange
  split
  · norm_num
  rename_i b1 r1
  split
  · norm_num
  rename_i hb1
  simp only [Bool.or_eq_true, decide_eq_true_eq, not_or, not_lt] at hb1
  split
  · -- two-byte sequence: the lead is in [0xc2, 0xdf]
    rename_i hlt2
    show 0x7f < (b % 0x20) * 0x40 + b1 % 0x40
    omega
  rename_i hnot2
  split
  · norm_num
  rename_i b2 r2
  split
  · norm_num
  rename_i hb2
  split
  · -- three-byte sequence: either the lead has a nonzero low nibble, or the
    -- lead is 0xe0 and the accept range forces the second byte above 0x9f
    rename_i hlt3
    show 0x7f < (b % 0x10) * 0x1000 + (b1 % 0x40) * 0x40 + b2 % 0x40
    by_cases he0 : b = 0xe0
    · rw [show utf8Lo b = 0xa0 by simp [utf8Lo, he0],
        show utf8Hi b = 0xbf by simp [utf8Hi, he0]] at hb1
      omega
    · omega
  rename_i hnot3
  split
  · norm_num
  rename_i b3 r3
  split
  · norm_num
  · -- four-byte sequence: the lead is in [0xf0, 0xf4] and the second-byte
    -- accept range keeps the code point at or above 0x10000
    show 0x7f < (b % 0x8) * 0x40000 + (b1 % 0x40) * 0x1000 + (b2 % 0x40) * 0x40
        + b3 % 0x40
    by_cases hf0 : b = 0xf0
    · rw [show utf8Lo b = 0x90 by simp [utf8Lo, hf0],
        show utf8Hi b = 0xbf by simp [utf8Hi, hf0]] at hb1
      omega
    · omega

/-- The per-rune condition of `stringNeedsJSONEsc`:
`c < 0x20 || c > 0x7f || c == 0x22 || c == 0x5c`. -/
def needsEscRune (c : Nat) : Bool :=
  c < 0x20 || 0x7f < c || c == 0x22 || c == 0x5c

/-- The rune loop of `stringNeedsJSONEsc`, with structural fuel.  Each
iteration consumes at least one byte, so fuel equal to the length of the
list is always enough; the zero-fuel nonempty case is unreachable from
`stringNeedsJSONEsc`. -/
def stringNeedsJSONEscFuel : Nat → List Nat → Bool
  | _, [] => false
  | 0, _ :: _ => false
  | n + 1, b :: rest =>
    if b < 0x80 then needsEscRune b || stringNeedsJSONEscFuel n rest
    else needsEscRune (decodeRuneAux b rest).1
        || stringNeedsJSONEscFuel n (decodeRuneAux b rest).2.2

/-- Model of `stringNeedsJSONEsc`: Go `for _, c := range s` iterates over
the decoded runes of the string, so the loop steps through the bytes with
the UTF-8 decoder and tests `needsEscRune` on each rune. -/
def stringNeedsJSONEsc (s : List Nat) : Bool :=
  stringNeedsJSONEscFuel s.length s

theorem stringNeedsJSONEscFuel_eq_any :
    ∀ (n : Nat) (s : List Nat), s.length ≤ n →
      stringNeedsJSONEscFuel n s = s.any needsEscRune := by
  intro n
  induction n with
  | zero =>
    intro s hs
    match s, hs with
    | [], _ => rfl
  | succ n ih =>
    intro s hs
    match s with
    | [] => rfl
    | b :: rest =>
      simp only [stringNeedsJSONEscFuel]
      by_cases hb : b < 0x80
      · rw [if_pos hb, List.any_cons,
          ih rest (by simp only [List.length_cons] at hs; omega)]
      · rw [if_neg hb]
        have hrune : needsEscRune (decodeRuneAux b rest).1 = true := by
          have := decodeRuneAux_rune_gt b rest (by omega)
          unfold needsEscRune
          simp
          omega
        have hbyte : needsEscRune b = true := by
          unfold needsEscRune
          simp
          omega
        rw [hrune, List.any_cons, hbyte]
        simp

/-- The rune-level loop of `stringNeedsJSONEsc` is equivalent to testing
every byte: it returns true exactly when some byte is below 0x20, above
0x7f, a double quote, or a backslash. -/
theorem stringNeedsJSONEsc_eq_any (s : List Nat) :
    stringNeedsJSONEsc s = s.any needsEscRune :=
  stringNeedsJSONEscFuel_eq_any s.length s le_rfl

/-- The htmlSafeSet table of encoding/json: ASCII bytes that are emitted
as-is by the string encoder when HTML escaping is on (the default for
`json.NewEncoder`, which the source never turns off). -/
def htmlSafe (b : Nat) : Bool :=
  0x20 ≤ b && b != 0x22 && b != 0x5c && b != 0x3c && b != 0x3e && b != 0x26

/-- Lowercase hex digit byte, as used by encoding/json `\u00xx` escapes. -/
def hexDigit (n : Nat) : Nat :=
  if n < 10 then 0x30 + n else 0x57 + n

/-- The escape encoding/json emits for an unsafe ASCII byte. -/
def escByte (b : Nat) : List Nat :=
  if b == 0x5c then [0x5c, 0x5c]
  else if b == 0x22 then [0x5c, 0x22]
  else if b == 0x0a then [0x5c, 0x6e]
  else if b == 0x0d then [0x5c, 0x72]
  else if b == 0x09 then [0x5c, 0x74]
  else [0x5c, 0x75, 0x30, 0x30, hexDigit (b / 16), hexDigit (b % 16)]

/-- Body of the encoding/json string encoder (appendString with HTML
escaping on), with structural fuel; fuel equal to the length of the list
is always enough.  Safe ASCII bytes are copied, unsafe ASCII bytes are
escaped, and multi-byte sequences are decoded: an invalid byte becomes
the literal text of the replacement-character escape, U+2028 and U+2029
are escaped, and all other valid sequences are copied verbatim. -/
def jsonStringBodyFuel : Nat → List Nat → List Nat
  | _, [] => []
  | 0, _ :: _ => []
  | n + 1, b :: rest =>
    if b < 0x80 then
      (if htmlSafe b then [b] else escByte b) ++ jsonStringBodyFuel n rest
    else
      (if (decodeRuneAux b rest).1 == 0xfffd
          && (decodeRuneAux b rest).2.1.length == 1 then
        [0x5c, 0x75, 0x66, 0x66, 0x66, 0x64]
      else if (decodeRuneAux b rest).1 == 0x2028 then
        [0x5c, 0x75, 0x32, 0x30, 0x32, 0x38]
      else if (decodeRuneAux b rest).1 == 0x2029 then
        [0x5c, 0x75, 0x32, 0x30, 0x32, 0x39]
      else (decodeRuneAux b rest).2.1)
        ++ jsonStringBodyFuel n (decodeRuneAux b rest).2.2

def jsonStringBody (s : List Nat) : List Nat := jsonStringBodyFuel s.length s

/-- Model of what `rw.rowOutEnc.Encode` appends for a string value, minus
the trailing newline the encoder adds (handled separately): an opening
quote, the escaped body, and a closing quote. -/
def goJSONEncodeString (s : List Nat) : List Nat :=
  0x22 :: jsonStringBody s ++ [0x22]

theorem jsonStringBodyFuel_of_safe :
    ∀ (n : Nat) (s : List Nat), s.length ≤ n →
      (∀ b ∈ s, b < 0x80 ∧ htmlSafe b = true) →
      jsonStringBodyFuel n s = s := by
  intro n
  induction n with
  | zero =>
    intro s hs _
    match s, hs with
    | [], _ => rfl
  | succ n ih =>
    intro s hs hsafe
    match s with
    | [] => rfl
    | b :: rest =>
      have hb := hsafe b (by simp)
      simp only [jsonStringBodyFuel, if_pos hb.1, hb.2, if_pos]
      rw [ih rest (by simp only [List.length_cons] at hs; omega)
        (fun c hc => hsafe c (by simp [hc]))]
      simp

/-- The fuel of `jsonStringBodyFuel` is irrelevant as long as it covers
the length of the input, so `jsonStringBody` is well-defined. -/
theorem jsonStringBodyFuel_irrel :
    ∀ (m : Nat) (s : List Nat), s.length ≤ m → ∀ (n : Nat), s.length ≤ n →
      jsonStringBodyFuel m s = jsonStringBodyFuel n s := by
  intro m
  induction m with
  | zero =>
    intro s hs n hn
    match s, hs with
    | [], _ => cases n <;> rfl
  | succ m ih =>
    intro s hs n hn
    match s, hs with
    | [], _ => cases n <;> rfl
    | b :: rest, hs =>
      match n, hn with
      | 0, hn => exact absurd hn (by simp)
      | n + 1, hn =>
        simp only [jsonStringBodyFuel]
        have hrem := decodeRuneAux_rem_length b rest
        by_cases hb : b < 0x80
        · rw [if_pos hb, if_pos hb,
            ih rest (by simp only [List.length_cons] at hs; omega)
              n (by simp only [List.length_cons] at hn; omega)]
        · rw [if_neg hb, if_neg hb,
            ih (decodeRuneAux b rest).2.2
              (by simp only [List.length_cons] at hs; omega)
              n (by simp only [List.length_cons] at hn; omega)]

/-- On strings of safe ASCII bytes the general encoder is the identity on
the body: output is just the quoted raw bytes. -/
theorem goJSONEncodeString_of_safe (s : List Nat)
    (hsafe : ∀ b ∈ s, b < 0x80 ∧ htmlSafe b = true) :
    goJSONEncodeString s = 0x22 :: (s ++ [0x22]) := by
  unfold goJSONEncodeString jsonStringBody
  rw [jsonStringBodyFuel_of_safe s.length s le_rfl hsafe]
  rfl

/-- Decimal digits of a natural number (strconv formatting, base 10). -/
def natDec (n : Nat) : List Nat := (Nat.toDigits 10 n).map Char.toNat

/-- Decimal digits of an integer with a leading minus sign when negative,
as produced by strconv AppendInt. -/
def intDec (i : Int) : List Nat :=
  if i < 0 then 0x2d :: natDec i.natAbs else natDec i.toNat

def nullBytes : List Nat := strBytes "null"

def boolBytes (b : Bool) : List Nat := if b then strBytes "true" else strBytes "false"

/-- The dynamic types the value encoder dispatches over: one constructor
per case of the writeValue type switch, plus `other` for every dynamic
type outside that closed set.  Pointers that can be nil are `Option`;
the sql.NullXxx holders carry their Valid flag.  The float and time
cases carry the bytes their strconv/time formatting produces for the
scanned value; that decimal and RFC 3339 rendering is kept uninterpreted
here since no property below depends on its digits. -/
inductive SqlValue where
  | str (s : List Nat)
  | pstr (v : Option (List Nat))
  | pNullStr (v : Option (Bool × List Nat))
  | pbytes (v : Option (List Nat))
  | rawBytes (v : Option (List Nat))
  | pint (v : Option Int)
  | pint32 (v : Option Int)
  | pint8 (v : Option Int)
  | pNullInt32 (v : Option (Bool × Int))
  | pint64 (v : Option Int)
  | pNullInt64 (v : Option (Bool × Int))
  | puint (v : Option Nat)
  | puint32 (v : Option Nat)
  | puint64 (v : Option Nat)
  | pbool (v : Option Bool)
  | pNullBool (v : Option (Bool × Bool))
  | pfloat32 (formatted : Option (List Nat))
  | pfloat64 (formatted : Option (List Nat))
  | pNullFloat64 (v : Option (Bool × List Nat))
  | pNullTime (v : Option (Bool × List Nat))
  | other (goType : List Nat)
deriving DecidableEq

/-- The errors the embedded operations can return. -/
inductive WErr where
  | unsupportedWriteValue (goType : List Nat)
  | unsupportedRawJSON
  | scanCountMismatch (expected got : Nat)
  | hookFailure (msg : List Nat)
  | rowsIterFailure (msg : List Nat)
deriving DecidableEq

/-- The string cases of writeValue: fast path writes a quote, the raw
bytes, and a quote when no escaping is needed, otherwise it delegates to
rowOutEnc.Encode, which appends the escaped string plus a newline (the
newline is removed again by the deferred trimnl). -/
def strValueRaw (s : List Nat) : List Nat :=
  if stringNeedsJSONEsc s then goJSONEncodeString s ++ [0x0a]
  else 0x22 :: (s ++ [0x22])

/-- The bytes each writeValue case appends to the row buffer, before the
deferred trimnl, together with the error result.  One case per arm of
the Go type switch; the catch-all returns the unsupported-type error and
appends nothing. -/
def writeValueRaw : SqlValue → List Nat × Option WErr
  | .str s => (strValueRaw s, none)
  | .pstr none => (nullBytes, none)
  | .pstr (some s) => (strValueRaw s, none)
  | .pNullStr none => (nullBytes, none)
  | .pNullStr (some (valid, s)) =>
    if valid then (strValueRaw s, none) else (nullBytes, none)
  | .pbytes none => (nullBytes, none)
  | .pbytes (some bs) => (strValueRaw bs, none)
  | .rawBytes none => (nullBytes, none)
  | .rawBytes (some bs) => (strValueRaw bs, none)
  | .pint none => (nullBytes, none)
  | .pint (some i) => (intDec i, none)
  | .pint32 none => (nullBytes, none)
  | .pint32 (some i) => (intDec i, none)
  | .pint8 none => (nullBytes, none)
  | .pint8 (some i) => (intDec i, none)
  | .pNullInt32 none => (nullBytes, none)
  | .pNullInt32 (some (valid, i)) =>
    if valid then (intDec i, none) else (nullBytes, none)
  | .pint64 none => (nullBytes, none)
  | .pint64 (some i) => (intDec i, none)
  | .pNullInt64 none => (nullBytes, none)
  | .pNullInt64 (some (valid, i)) =>
    if valid then (intDec i, none) else (nullBytes, none)
  | .puint none => (nullBytes, none)
  | .puint (some u) => (natDec u, none)
  | .puint32 none => (nullBytes, none)
  | .puint32 (some u) => (natDec u, none)
  | .puint64 none => (nullBytes, none)
  | .puint64 (some u) => (natDec u, none)
  | .pbool none => (nullBytes, none)
  | .pbool (some b) => (boolBytes b, none)
  | .pNullBool none => (nullBytes, none)
  | .pNullBool (some (valid, b)) =>
    if valid then (boolBytes b, none) else (nullBytes, none)
  | .pfloat32 none => (nullBytes, none)
  | .pfloat32 (some f) => (f, none)
  | .pfloat64 none => (nullBytes, none)
  | .pfloat64 (some f) => (f, none)
  | .pNullFloat64 none => (nullBytes, none)
  | .pNullFloat64 (some (valid, f)) =>
    if valid then (f, none) else (nullBytes, none)
  | .pNullTime none => (nullBytes, none)
  | .pNullTime (some (valid, t)) =>
    if valid then (0x22 :: (t ++ [0x22]), none) else (nullBytes, none)
  | .other t => ([], some (.unsupportedWriteValue t))

/-- Model of the method `writeValue`: append the JSON literal for the
scanned value to the row buffer; the deferred trimnl then removes any
trailing newline bytes from the whole buffer. -/
def writeValue (buf : List Nat) (v : SqlValue) : List Nat × Option WErr :=
  (trimnl (buf ++ (writeValueRaw v).1), (writeValueRaw v).2)

/-- The bytes writeValue effectively contributes for one value. -/
def valueChunk (v : SqlValue) : List Nat := trimnl (writeValueRaw v).1

/-- The bytes each writeRawJSONValue case appends, before the deferred
trimnl: string and byte-sequence representations are copied verbatim
with no quoting, a nil pointer or invalid holder becomes `null`, an
empty sql.RawBytes value gets the literal brackets prepended, and every
other representation is the unsupported-type error. -/
def writeRawJSONValueRaw : SqlValue → List Nat × Option WErr
  | .str s => (s, none)
  | .pstr none => (nullBytes, none)
  | .pstr (some s) => (s, none)
  | .pNullStr none => (nullBytes, none)
  | .pNullStr (some (valid, s)) => if valid then (s, none) else (nullBytes, none)
  | .pbytes none => (nullBytes, none)
  | .pbytes (some bs) => (bs, none)
  | .rawBytes none => (nullBytes, none)
  | .rawBytes (some bs) => ((if bs.isEmpty then [0x5b, 0x5d] else []) ++ bs, none)
  | _ => ([], some .unsupportedRawJSON)

/-- Model of the method `writeRawJSONValue`. -/
def writeRawJSONValue (buf : List Nat) (v : SqlValue) : List Nat × Option WErr :=
  (trimnl (buf ++ (writeRawJSONValueRaw v).1), (writeRawJSONValueRaw v).2)

/-- The bytes writeValue contributes for a string value. -/
def encStr (s : List Nat) : List Nat :=
  if stringNeedsJSONEsc s then goJSONEncodeString s else 0x22 :: (s ++ [0x22])

theorem trimnl_append_nl (l : List Nat) : trimnl (l ++ [0x0a]) = trimnl l :=
  trimnl_append_of_nil (by decide)

theorem trimnl_strValueRaw (s : List Nat) : trimnl (strValueRaw s) = encStr s := by
  unfold strValueRaw encStr
  by_cases h : stringNeedsJSONEsc s
  · rw [if_pos h, if_pos h, trimnl_append_nl]
    unfold goJSONEncodeString
    rw [show (0x22 :: jsonStringBody s ++ [0x22] : List Nat)
        = (0x22 :: jsonStringBody s) ++ [0x22] by simp]
    exact trimnl_snoc_of_ne (by norm_num)
  · rw [if_neg h, if_neg h,
      show (0x22 :: (s ++ [0x22]) : List Nat) = (0x22 :: s) ++ [0x22] by simp]
    exact trimnl_snoc_of_ne (by norm_num)

theorem encStr_ne_nil (s : List Nat) : encStr s ≠ [] := by
  unfold encStr
  by_cases h : stringNeedsJSONEsc s
  · rw [if_pos h]
    unfold goJSONEncodeString
    simp
  · rw [if_neg h]
    simp

theorem valueChunk_str (s : List Nat) : valueChunk (.str s) = encStr s := by
  unfold valueChunk writeValueRaw
  exact trimnl_strValueRaw s

/-- When a value contributes at least one byte, writeValue is a plain
append onto the buffer. -/
theorem writeValue_append {v : SqlValue} (buf : List Nat)
    (h : valueChunk v ≠ []) :
    writeValue buf v = (buf ++ valueChunk v, (writeValueRaw v).2) := by
  unfold writeValue valueChunk at *
  rw [trimnl_append_of_ne_nil h]

/-- writeValue called right after the colon separator: even a value that
contributes nothing (the unsupported case) leaves the buffer intact,
because the deferred trimnl stops at the colon byte. -/
theorem writeValue_after_colon (buf : List Nat) (v : SqlValue) :
    writeValue (buf ++ [0x3a]) v
      = (buf ++ [0x3a] ++ valueChunk v, (writeValueRaw v).2) := by
  by_cases h : valueChunk v = []
  · unfold writeValue
    rw [trimnl_append_of_nil h, trimnl_snoc_of_ne (by norm_num), h]
    simp
  · exact writeValue_append _ h

/-- Result of one JSONValueFunc call: the bytes the hook wrote to the
buffer it was handed, the ok and skip flags, and an optional error. -/
structure HookOut where
  written : List Nat
  ok : Bool
  skip : Bool
  fail : Option (List Nat)

/-- A JSONValueFunc override hook: column name, column index, scanned
value.  The Go callback also receives a writer; its effect is captured by
the `written` field of the result. -/
def HookFn : Type := List Nat → Nat → SqlValue → HookOut

/-- Model of the method `writeRowFields`, recursing over the columns as
(name, value) pairs (the Go loop indexes colNames and scanArgs in step;
these always have equal length, being set together).  Per column: consult
the hook if present (abort on error, skip before any separator), write
the comma separator only once a previous column was actually emitted,
write the encoded name and a colon, then either the bytes the hook wrote
(ok) or the default encoding.  The error results of both writeValue calls
are discarded, exactly as in the source. -/
def writeRowFields (hook : Option HookFn) :
    List (List Nat × SqlValue) → Nat → Bool → List Nat → List Nat × Option WErr
  | [], _, _, buf => (buf, none)
  | (name, v) :: rest, i, doneFirstCol, buf =>
    let hr : HookOut := match hook with
      | some h => h name i v
      | none => ⟨[], false, false, none⟩
    match hr.fail with
    | some msg => (buf, some (.hookFailure msg))
    | none =>
      if hr.skip then writeRowFields hook rest (i + 1) doneFirstCol buf
      else
        let buf1 := if doneFirstCol then buf ++ [0x2c] else buf
        let buf2 := (writeValue buf1 (.str name)).1
        let buf3 := buf2 ++ [0x3a]
        if hr.ok then writeRowFields hook rest (i + 1) true (buf3 ++ hr.written)
        else writeRowFields hook rest (i + 1) true (writeValue buf3 v).1

/-- HTTP response headers, when the sink is an http.ResponseWriter. -/
def Headers : Type := List (List Nat × List Nat)

/-- http.Header Get: first value for the key, empty if absent. -/
def headerGet (h : Headers) (k : List Nat) : List Nat :=
  match h.find? (fun p => p.1 == k) with
  | some p => p.2
  | none => []

/-- http.Header Set: replace all values for the key with the one value. -/
def headerSet (h : Headers) (k v : List Nat) : Headers :=
  (k, v) :: h.filter (fun p => !(p.1 == k))

def contentTypeKey : List Nat := strBytes "Content-Type"

def applicationJSON : List Nat := strBytes "application/json"

/-- The RowsWriter state.  The sink is modeled by `output` (bytes written
so far) and `header` (`some` when the io.Writer is an http.ResponseWriter,
`none` otherwise).  `colNames` and `scanArgs` distinguish Go nil slices
(`none`) from empty non-nil slices (`some []`), because scanRowArgs
branches on `rw.colNames == nil`.  The scratch fields valOutBuf,
valOutBytes and the unused jsonFieldSuffixes are truncated before every
use in the source and never observable, so they are not part of the
state; rowOutEnc is modeled functionally by `goJSONEncodeString`. -/
structure RowsWriter where
  JSONValueFunc : Option HookFn
  colNames : Option (List (List Nat))
  scanArgs : Option (List SqlValue)
  rowOutBuf : List Nat
  header : Option Headers
  output : List Nat

/-- Model of `NewRowsWriter`: all internal state zero-valued (nil). -/
def NewRowsWriter (header : Option Headers) : RowsWriter :=
  ⟨none, none, none, [], header, []⟩

/-- Model of `Reset`: Go truncates each slice with `s[:0]`, which keeps a
nil slice nil and turns a non-nil slice into an empty non-nil slice, and
empties the row buffer; the writer and hook are retained.  The scratch
buffers it also truncates are not part of the modeled state. -/
def Reset (rw : RowsWriter) : RowsWriter :=
  { rw with colNames := rw.colNames.map (fun _ => []),
            scanArgs := rw.scanArgs.map (fun _ => []),
            rowOutBuf := [] }

/-- One result set as the external cursor hands it over: the column names
reported by Columns, the zero-valued scan holders that resolution
allocates from the ColumnTypes scan types (one per column for a real
result set), the decoded rows in scan-target representation, and the
iteration error Err reports after Next returns false. -/
structure Rows where
  cols : List (List Nat)
  scanTargets : List SqlValue
  rows : List (List SqlValue)
  iterErr : Option (List Nat)

/-- Model of `scanRowArgs`: on first use (colNames nil) resolve the
column names and allocate the scan targets, leaving the row buffer
untouched; otherwise reset the row buffer and prepend a comma when
requested.  Then Scan: database/sql rejects a call whose destination
count differs from the column count; on success the holder contents
become the current row (the slice itself is never replaced).  Metadata
errors from Columns/ColumnTypes and per-column decode faults of the
driver are not modeled: the cursor model always has metadata, and rows
already carry values in their scan-target representation. -/
def scanRowArgs (rw : RowsWriter) (rs : Rows) (cur : List SqlValue)
    (comma : Bool) : RowsWriter × Option WErr :=
  let rw1 :=
    match rw.colNames with
    | none => { rw with colNames := some rs.cols, scanArgs := some rs.scanTargets }
    | some _ => { rw with rowOutBuf := if comma then [0x2c] else [] }
  let args := rw1.scanArgs.getD []
  if args.length = rs.cols.length then
    ({ rw1 with scanArgs := rw1.scanArgs.map (fun _ => cur) }, none)
  else (rw1, some (.scanCountMismatch rs.cols.length args.length))

/-- Model of `WriteCommaRow`: scan with a leading comma for every row
after the first, then emit the row object and flush it to the sink. -/
def WriteCommaRow (rw : RowsWriter) (rs : Rows) (cur : List SqlValue) :
    RowsWriter × Option WErr :=
  match scanRowArgs rw rs cur true with
  | (rw1, some e) => (rw1, some e)
  | (rw1, none) =>
    match writeRowFields rw1.JSONValueFunc
        ((rw1.colNames.getD []).zip (rw1.scanArgs.getD [])) 0 false
        (rw1.rowOutBuf ++ [0x7b]) with
    | (buf1, some e) => ({ rw1 with rowOutBuf := buf1 }, some e)
    | (buf1, none) =>
      ({ rw1 with rowOutBuf := [],
                  output := rw1.output ++ (buf1 ++ [0x7d, 0x0a]) }, none)

/-- Model of `WriteRow`: identical to WriteCommaRow except that no comma
is requested from scanRowArgs. -/
def WriteRow (rw : RowsWriter) (rs : Rows) (cur : List SqlValue) :
    RowsWriter × Option WErr :=
  match scanRowArgs rw rs cur false with
  | (rw1, some e) => (rw1, some e)
  | (rw1, none) =>
    match writeRowFields rw1.JSONValueFunc
        ((rw1.colNames.getD []).zip (rw1.scanArgs.getD [])) 0 false
        (rw1.rowOutBuf ++ [0x7b]) with
    | (buf1, some e) => ({ rw1 with rowOutBuf := buf1 }, some e)
    | (buf1, none) =>
      ({ rw1 with rowOutBuf := [],
                  output := rw1.output ++ (buf1 ++ [0x7d, 0x0a]) }, none)

/-- The `for rows.Next() { WriteCommaRow }` loop shared by WriteCommaRows
and WriteResponse, driven over the remaining rows of the cursor. -/
def writeRowsLoop (rw : RowsWriter) (rs : Rows) :
    List (List SqlValue) → RowsWriter × Option WErr
  | [] => (rw, none)
  | r :: rest =>
    match WriteCommaRow rw rs r with
    | (rw1, some e) => (rw1, some e)
    | (rw1, none) => writeRowsLoop rw1 rs rest

/-- Model of `WriteCommaRows`: the row loop followed by the rows.Err
check; no brackets are written. -/
def WriteCommaRows (rw : RowsWriter) (rs : Rows) : RowsWriter × Option WErr :=
  match writeRowsLoop rw rs rs.rows with
  | (rw1, some e) => (rw1, some e)
  | (rw1, none) =>
    match rs.iterErr with
    | some msg => (rw1, some (.rowsIterFailure msg))
    | none => (rw1, none)

/-- The Content-Type step at the top of WriteResponse: only when the sink
is an http.ResponseWriter, and only when Content-Type is currently empty,
set it to application/json. -/
def setContentTypeStep : Option Headers → Option Headers
  | none => none
  | some h =>
    if headerGet h contentTypeKey = [] then
      some (headerSet h contentTypeKey applicationJSON)
    else some h

/-- Model of `WriteResponse`: the Content-Type step, an opening bracket
line written straight to the sink, the row loop, the rows.Err check, and
a closing bracket line. -/
def WriteResponse (rw : RowsWriter) (rs : Rows) : RowsWriter × Option WErr :=
  let rw0 := { rw with header := setContentTypeStep rw.header,
                       output := rw.output ++ [0x5b, 0x0a] }
  match writeRowsLoop rw0 rs rs.rows with
  | (rw1, some e) => (rw1, some e)
  | (rw1, none) =>
    match rs.iterErr with
    | some msg => (rw1, some (.rowsIterFailure msg))
    | none => ({ rw1 with output := rw1.output ++ [0x5d, 0x0a] }, none)

/-- Reference rendering of the row body without a hook: for each column a
comma when a column was already emitted, the encoded name, a colon, and
the bytes of the default value encoding. -/
def rowBodyAux : List (List Nat × SqlValue) → Bool → List Nat
  | [], _ => []
  | (n, v) :: rest, doneFirstCol =>
    (if doneFirstCol then [0x2c] else []) ++ encStr n ++ [0x3a] ++ valueChunk v
      ++ rowBodyAux rest true

/-- Reference rendering of the row body with a hook: skipped columns
contribute nothing at all, emitted columns get a comma only when an
earlier column was actually emitted, and a handled column contributes
the bytes the hook wrote in place of the default encoding. -/
def hookBodyAux (h : HookFn) : List (List Nat × SqlValue) → Nat → Bool → List Nat
  | [], _, _ => []
  | (n, v) :: rest, i, doneFirstCol =>
    if (h n i v).skip then hookBodyAux h rest (i + 1) doneFirstCol
    else (if doneFirstCol then [0x2c] else []) ++ encStr n ++ [0x3a]
      ++ (if (h n i v).ok then (h n i v).written else valueChunk v)
      ++ hookBodyAux h rest (i + 1) true

/-- The hook returns no error on any of the given columns. -/
def hookErrFree (h : HookFn) : List (List Nat × SqlValue) → Nat → Prop
  | [], _ => True
  | (n, v) :: rest, i => (h n i v).fail = none ∧ hookErrFree h rest (i + 1)

/-- The hook reports skip on every one of the given columns. -/
def hookSkipsAll (h : HookFn) : List (List Nat × SqlValue) → Nat → Prop
  | [], _ => True
  | (n, v) :: rest, i => (h n i v).skip = true ∧ hookSkipsAll h rest (i + 1)

theorem writeRowFields_none (pairs : List (List Nat × SqlValue)) :
    ∀ (doneFirstCol : Bool) (buf : List Nat),
      writeRowFields none pairs 0 doneFirstCol buf
        = (buf ++ rowBodyAux pairs doneFirstCol, none) := by
  suffices h : ∀ (i : Nat) (doneFirstCol : Bool) (buf : List Nat),
      writeRowFields none pairs i doneFirstCol buf
        = (buf ++ rowBodyAux pairs doneFirstCol, none) from fun df buf => h 0 df buf
  induction pairs with
  | nil => intro i df buf; simp [writeRowFields, rowBodyAux]
  | cons p rest ih =>
    intro i df buf
    obtain ⟨n, v⟩ := p
    simp only [writeRowFields, rowBodyAux, Bool.false_eq_true, if_false]
    rw [writeValue_after_colon]
    rw [writeValue_append _ (by rw [valueChunk_str]; exact encStr_ne_nil n)]
    rw [valueChunk_str, ih]
    cases df <;> simp

theorem writeRowFields_hook (h : HookFn) (pairs : List (List Nat × SqlValue)) :
    ∀ (i : Nat) (doneFirstCol : Bool) (buf : List Nat),
      hookErrFree h pairs i →
      writeRowFields (some h) pairs i doneFirstCol buf
        = (buf ++ hookBodyAux h pairs i doneFirstCol, none) := by
  induction pairs with
  | nil => intro i df buf _; simp [writeRowFields, hookBodyAux]
  | cons p rest ih =>
    intro i df buf hfree
    obtain ⟨n, v⟩ := p
    obtain ⟨hfail, hfree'⟩ := hfree
    simp only [writeRowFields, hookBodyAux, hfail]
    by_cases hskip : (h n i v).skip
    · rw [if_pos hskip, if_pos hskip, ih _ _ _ hfree']
    · rw [if_neg hskip, if_neg hskip]
      by_cases hok : (h n i v).ok
      · rw [if_pos hok, if_pos hok]
        rw [writeValue_append _ (by rw [valueChunk_str]; exact encStr_ne_nil n)]
        rw [valueChunk_str, ih _ _ _ hfree']
        cases df <;> simp
      · rw [if_neg hok, if_neg hok, writeValue_after_colon]
        rw [writeValue_append _ (by rw [valueChunk_str]; exact encStr_ne_nil n)]
        rw [valueChunk_str, ih _ _ _ hfree']
        cases df <;> simp

theorem hookBodyAux_skipsAll (h : HookFn) (pairs : List (List Nat × SqlValue)) :
    ∀ (i : Nat) (doneFirstCol : Bool), hookSkipsAll h pairs i →
      hookBodyAux h pairs i doneFirstCol = [] := by
  induction pairs with
  | nil => intro i df _; rfl
  | cons p rest ih =>
    intro i df hall
    obtain ⟨n, v⟩ := p
    obtain ⟨hskip, hall'⟩ := hall
    simp only [hookBodyAux, if_pos hskip]
    exact ih _ _ hall'

/-- One emitted row: open brace, the row body, close brace, newline. -/
def renderRow (cols : List (List Nat)) (r : List SqlValue) : List Nat :=
  0x7b :: (rowBodyAux (cols.zip r) false ++ [0x7d, 0x0a])

/-- Rows joined with a leading comma on every row after the first. -/
def commaJoined (cols : List (List Nat)) : List (List SqlValue) → List Nat
  | [] => []
  | r :: rest =>
    renderRow cols r ++ (rest.map (fun r2 => 0x2c :: renderRow cols r2)).flatten

/-- A hookless writer already bound to the column shape of the result
set: WriteCommaRow resets the row buffer to a comma, scans, and flushes
the comma-prefixed row. -/
theorem WriteCommaRow_ready {rw : RowsWriter} {rs : Rows} {r args : List SqlValue}
    (hhook : rw.JSONValueFunc = none) (hcols : rw.colNames = some rs.cols)
    (hargs : rw.scanArgs = some args) (hlen : args.length = rs.cols.length) :
    WriteCommaRow rw rs r
      = ({ rw with
            scanArgs := some r
            rowOutBuf := []
            output := rw.output ++ (0x2c :: renderRow rs.cols r) }, none) := by
  unfold WriteCommaRow scanRowArgs
  rw [hcols]
  simp only [hargs, hhook, Option.getD_some, Option.map_some, hlen, ite_true,
    eq_self_iff_true, if_true]
  rw [writeRowFields_none]
  unfold renderRow
  simp [List.append_assoc]

/-- A hookless fresh writer (no columns resolved yet): WriteCommaRow
resolves the columns, leaves the row buffer alone (no comma), scans, and
flushes the row. -/
theorem WriteCommaRow_fresh {rw : RowsWriter} {rs : Rows} {r : List SqlValue}
    (hhook : rw.JSONValueFunc = none) (hcols : rw.colNames = none)
    (hbuf : rw.rowOutBuf = [])
    (hlen : rs.scanTargets.length = rs.cols.length) :
    WriteCommaRow rw rs r
      = ({ rw with
            colNames := some rs.cols
            scanArgs := some r
            rowOutBuf := []
            output := rw.output ++ renderRow rs.cols r }, none) := by
  unfold WriteCommaRow scanRowArgs
  rw [hcols]
  simp only [hhook, hbuf, Option.getD_some, Option.map_some, hlen, ite_true,
    eq_self_iff_true, if_true]
  rw [writeRowFields_none]
  unfold renderRow
  simp [List.append_assoc]

/-- Driving the row loop from a ready writer emits every row with a
leading comma and keeps the writer ready. -/
theorem writeRowsLoop_ready (rs : Rows) :
    ∀ (rows : List (List SqlValue)) (rw : RowsWriter) (args : List SqlValue),
      rw.JSONValueFunc = none → rw.colNames = some rs.cols →
      rw.scanArgs = some args → args.length = rs.cols.length →
      (∀ r ∈ rows, r.length = rs.cols.length) →
      ∃ rw', writeRowsLoop rw rs rows = (rw', none)
        ∧ rw'.JSONValueFunc = none ∧ rw'.colNames = some rs.cols
        ∧ (∃ args2, rw'.scanArgs = some args2 ∧ args2.length = rs.cols.length)
        ∧ rw'.header = rw.header
        ∧ rw'.output = rw.output
            ++ (rows.map (fun r2 => 0x2c :: renderRow rs.cols r2)).flatten := by
  intro rows
  induction rows with
  | nil =>
    intro rw args h1 h2 h3 h4 _
    exact ⟨rw, rfl, h1, h2, ⟨args, h3, h4⟩, rfl, by simp⟩
  | cons r rest ih =>
    intro rw args h1 h2 h3 h4 hrows
    have hW := @WriteCommaRow_ready rw rs r args h1 h2 h3 h4
    obtain ⟨rw', hEq, hf1, hf2, hf3, hf4, hf5⟩ :=
      ih { rw with
            scanArgs := some r
            rowOutBuf := []
            output := rw.output ++ (0x2c :: renderRow rs.cols r) }
        r h1 h2 rfl (hrows r (by simp)) (fun r2 hr2 => hrows r2 (by simp [hr2]))
    refine ⟨rw', ?_, hf1, hf2, hf3, by simpa using hf4, ?_⟩
    · simp only [writeRowsLoop, hW]
      exact hEq
    · rw [hf5]
      simp

/-- A fresh hookless writer driving WriteCommaRows over a well-formed
cursor succeeds and emits the rows joined with leading commas from the
second row on, with no brackets. -/
theorem WriteCommaRows_output {rw : RowsWriter} {rs : Rows}
    (hhook : rw.JSONValueFunc = none) (hcols : rw.colNames = none)
    (hbuf : rw.rowOutBuf = [])
    (htargets : rs.scanTargets.length = rs.cols.length)
    (hrows : ∀ r ∈ rs.rows, r.length = rs.cols.length)
    (hiter : rs.iterErr = none) :
    (WriteCommaRows rw rs).2 = none ∧
    (WriteCommaRows rw rs).1.output = rw.output ++ commaJoined rs.cols rs.rows := by
  unfold WriteCommaRows
  cases hr : rs.rows with
  | nil =>
    simp [writeRowsLoop, hiter, commaJoined]
  | cons r rest =>
    rw [hr] at hrows
    have hW := @WriteCommaRow_fresh rw rs r hhook hcols hbuf htargets
    obtain ⟨rw', hEq, _, _, _, _, hout⟩ :=
      writeRowsLoop_ready rs rest
        { rw with
            colNames := some rs.cols
            scanArgs := some r
            rowOutBuf := []
            output := rw.output ++ renderRow rs.cols r }
        r hhook rfl rfl (hrows r (by simp)) (fun r2 hr2 => hrows r2 (by simp [hr2]))
    simp only [writeRowsLoop, hW, hEq, hiter]
    rw [hout]
    simp [commaJoined]

/-- A fresh hookless writer driving WriteResponse over a well-formed
cursor succeeds and emits an opening bracket line, the comma-joined rows,
and a closing bracket line. -/
theorem WriteResponse_output {rw : RowsWriter} {rs : Rows}
    (hhook : rw.JSONValueFunc = none) (hcols : rw.colNames = none)
    (hbuf : rw.rowOutBuf = [])
    (htargets : rs.scanTargets.length = rs.cols.length)
    (hrows : ∀ r ∈ rs.rows, r.length = rs.cols.length)
    (hiter : rs.iterErr = none) :
    (WriteResponse rw rs).2 = none ∧
    (WriteResponse rw rs).1.output
      = rw.output ++ [0x5b, 0x0a]
          ++ commaJoined rs.cols rs.rows ++ [0x5d, 0x0a] := by
  unfold WriteResponse
  cases hr : rs.rows with
  | nil =>
    simp [writeRowsLoop, hiter, commaJoined]
  | cons r rest =>
    rw [hr] at hrows
    have hW := @WriteCommaRow_fresh
      { rw with
          header := setContentTypeStep rw.header
          output := rw.output ++ [0x5b, 0x0a] }
      rs r hhook hcols hbuf htargets
    obtain ⟨rw', hEq, _, _, _, _, hout⟩ :=
      writeRowsLoop_ready rs rest
        { rw with
            header := setContentTypeStep rw.header
            colNames := some rs.cols
            scanArgs := some r
            rowOutBuf := []
            output := rw.output ++ [0x5b, 0x0a] ++ renderRow rs.cols r }
        r hhook rfl rfl (hrows r (by simp)) (fun r2 hr2 => hrows r2 (by simp [hr2]))
    simp only [writeRowsLoop]
    rw [show WriteCommaRow
        { rw with
            header := setContentTypeStep rw.header
            output := rw.output ++ [0x5b, 0x0a] } rs r
        = ({ rw with
              header := setContentTypeStep rw.header
              colNames := some rs.cols
              scanArgs := some r
              rowOutBuf := []
              output := rw.output ++ [0x5b, 0x0a] ++ renderRow rs.cols r }, none)
      by rw [hW]; try simp]
    simp only [hEq, hiter]
    rw [hout]
    simp [commaJoined]

/-- scanRowArgs neither reads nor writes the response header. -/
theorem scanRowArgs_header_commute (rw : RowsWriter) (rs : Rows)
    (cur : List SqlValue) (comma : Bool) (x : Option Headers) :
    scanRowArgs { rw with header := x } rs cur comma
      = ({ (scanRowArgs rw rs cur comma).1 with header := x },
         (scanRowArgs rw rs cur comma).2) := by
  unfold scanRowArgs
  cases hc : rw.colNames <;> simp [hc] <;> split <;> simp

/-- WriteCommaRow neither reads nor writes the response header. -/
theorem WriteCommaRow_header_commute (rw : RowsWriter) (rs : Rows)
    (cur : List SqlValue) (x : Option Headers) :
    WriteCommaRow { rw with header := x } rs cur
      = ({ (WriteCommaRow rw rs cur).1 with header := x },
         (WriteCommaRow rw rs cur).2) := by
  unfold WriteCommaRow
  rw [scanRowArgs_header_commute]
  rcases hS : scanRowArgs rw rs cur true with ⟨rw1, e1⟩
  cases e1 with
  | some e => simp
  | none =>
    simp only []
    rcases hF : writeRowFields rw1.JSONValueFunc
        ((rw1.colNames.getD []).zip (rw1.scanArgs.getD [])) 0 false
        (rw1.rowOutBuf ++ [0x7b]) with ⟨buf1, e2⟩
    cases e2 <;> simp [hF]

/-- The row loop neither reads nor writes the response header. -/
theorem writeRowsLoop_header_commute (rs : Rows) :
    ∀ (rows : List (List SqlValue)) (rw : RowsWriter) (x : Option Headers),
      writeRowsLoop { rw with header := x } rs rows
        = ({ (writeRowsLoop rw rs rows).1 with header := x },
           (writeRowsLoop rw rs rows).2) := by
  intro rows
  induction rows with
  | nil => intro rw x; rfl
  | cons r rest ih =>
    intro rw x
    simp only [writeRowsLoop]
    rw [WriteCommaRow_header_commute]
    rcases hW : WriteCommaRow rw rs r with ⟨rw1, e1⟩
    cases e1 with
    | some e => simp
    | none => exact ih rw1 x

theorem headerFind_filter (t : Headers) (k k2 : List Nat) (hne : k2 ≠ k) :
    (t.filter (fun p => !(p.1 == k))).find? (fun p => p.1 == k2)
      = t.find? (fun p => p.1 == k2) := by
  induction t with
  | nil => rfl
  | cons p t ih =>
    by_cases hp : p.1 = k
    · rw [List.filter_cons_of_neg (by simp [hp])]
      rw [List.find?_cons_of_neg _ (by simp [hp]; exact fun hh => hne hh.symm)]
      exact ih
    · rw [List.filter_cons_of_pos (by simp [hp])]
      by_cases hq : p.1 = k2
      · rw [List.find?_cons_of_pos _ (by simp [hq]),
          List.find?_cons_of_pos _ (by simp [hq])]
      · rw [List.find?_cons_of_neg _ (by simp [hq]),
          List.find?_cons_of_neg _ (by simp [hq])]
        exact ih

theorem headerGet_set_self (h : Headers) (k v : List Nat) :
    headerGet (headerSet h k v) k = v := by
  unfold headerGet headerSet
  rw [List.find?_cons_of_pos _ (by simp)]

theorem headerGet_set_other (h : Headers) (k v k2 : List Nat) (hne : k2 ≠ k) :
    headerGet (headerSet h k v) k2 = headerGet h k2 := by
  unfold headerGet headerSet
  rw [List.find?_cons_of_neg _ (by simp; exact fun hh => hne hh.symm)]
  rw [headerFind_filter h k k2 hne]

theorem writeRowsLoop_header (rs : Rows) (rows : List (List SqlValue))
    (rw : RowsWriter) :
    (writeRowsLoop rw rs rows).1.header = rw.header := by
  have h : writeRowsLoop rw rs rows
      = ({ (writeRowsLoop rw rs rows).1 with header := rw.header },
         (writeRowsLoop rw rs rows).2) :=
    writeRowsLoop_header_commute rs rows rw rw.header
  conv_lhs => rw [h]

/-- WriteResponse applies exactly the Content-Type step to the header:
nothing later in the response writes headers. -/
theorem WriteResponse_header (rw : RowsWriter) (rs : Rows) :
    (WriteResponse rw rs).1.header = setContentTypeStep rw.header := by
  simp only [WriteResponse]
  have hdr := writeRowsLoop_header rs rs.rows
    { rw with
        header := setContentTypeStep rw.header
        output := rw.output ++ [0x5b, 0x0a] }
  rcases hL : writeRowsLoop
      { rw with
          header := setContentTypeStep rw.header
          output := rw.output ++ [0x5b, 0x0a] } rs rs.rows with ⟨rw1, e1⟩
  rw [hL] at hdr
  cases e1 with
  | some e => simpa using hdr
  | none =>
    cases hI : rs.iterErr with
    | some m => simpa using hdr
    | none => simpa using hdr

theorem writeRowsLoop_err_irrel (rs : Rows) (rows : List (List SqlValue))
    (f : Option HookFn) (c : Option (List (List Nat)))
    (a : Option (List SqlValue)) (b o : List Nat) (x y : Option Headers) :
    (writeRowsLoop ⟨f, c, a, b, x, o⟩ rs rows).2
      = (writeRowsLoop ⟨f, c, a, b, y, o⟩ rs rows).2 := by
  have h : writeRowsLoop (⟨f, c, a, b, x, o⟩ : RowsWriter) rs rows
      = ({ (writeRowsLoop (⟨f, c, a, b, y, o⟩ : RowsWriter) rs rows).1 with
            header := x },
         (writeRowsLoop (⟨f, c, a, b, y, o⟩ : RowsWriter) rs rows).2) :=
    writeRowsLoop_header_commute rs rows ⟨f, c, a, b, y, o⟩ x
  rw [h]

/-- The success or failure of WriteResponse never depends on the header
state of the sink: a sink with no header support fails in exactly the
same cases as one with headers. -/
theorem WriteResponse_err_irrel (rw : RowsWriter) (rs : Rows)
    (x : Option Headers) :
    (WriteResponse { rw with header := x } rs).2 = (WriteResponse rw rs).2 := by
  simp only [WriteResponse]
  have hE := writeRowsLoop_err_irrel rs rs.rows rw.JSONValueFunc rw.colNames
    rw.scanArgs rw.rowOutBuf (rw.output ++ [0x5b, 0x0a])
    (setContentTypeStep x) (setContentTypeStep rw.header)
  rcases hx : writeRowsLoop
      ⟨rw.JSONValueFunc, rw.colNames, rw.scanArgs, rw.rowOutBuf,
        setContentTypeStep x, rw.output ++ [0x5b, 0x0a]⟩ rs rs.rows with ⟨rwa, ea⟩
  rcases hy : writeRowsLoop
      ⟨rw.JSONValueFunc, rw.colNames, rw.scanArgs, rw.rowOutBuf,
        setContentTypeStep rw.header, rw.output ++ [0x5b, 0x0a]⟩ rs rs.rows
    with ⟨rwb, eb⟩
  cases ea <;> cases eb <;> simp_all
  cases rs.iterErr <;> simp

/-! Concrete fixtures for the scenario instances of the claims. -/

def widgetCols : List (List Nat) := [strBytes "widget_id", strBytes "name"]

/-- The widgets result set of the scenario: two rows scanned as strings. -/
def widgetRows : Rows where
  cols := widgetCols
  scanTargets := [SqlValue.pNullStr none, SqlValue.pNullStr none]
  rows := [[SqlValue.str (strBytes "abc123"), SqlValue.str (strBytes "First One")],
           [SqlValue.str (strBytes "def456"), SqlValue.str (strBytes "Next One")]]
  iterErr := none

/-- The widgets result set with a cursor that is immediately exhausted. -/
def emptyWidgetRows : Rows where
  cols := widgetCols
  scanTargets := [SqlValue.pNullStr none, SqlValue.pNullStr none]
  rows := []
  iterErr := none

/-- A one-column result set whose scanned value has a dynamic type outside
the writeValue dispatch set. -/
def unsupportedRows : Rows where
  cols := [strBytes "a"]
  scanTargets := [SqlValue.other (strBytes "chan int")]
  rows := [[SqlValue.other (strBytes "chan int")]]
  iterErr := none

/-- A plain one-column string result set. -/
def oneColRows : Rows where
  cols := [strBytes "a"]
  scanTargets := [SqlValue.pstr none]
  rows := [[SqlValue.str (strBytes "x")]]
  iterErr := none

/-- A hook that skips every column. -/
def skipAllHook : HookFn := fun _ _ _ => ⟨[], false, true, none⟩

/-- A writer with the skip-everything hook installed. -/
def skipAllWriter : RowsWriter :=
  { NewRowsWriter none with JSONValueFunc := some skipAllHook }

/-- A two-column result set for the hook scenarios. -/
def hookRows : Rows where
  cols := [strBytes "widget_id", strBytes "data"]
  scanTargets := [SqlValue.pNullStr none, SqlValue.pNullStr none]
  rows := [[SqlValue.str (strBytes "abc123"), SqlValue.str (strBytes "zzz")]]
  iterErr := none

/-- Claim C1: streaming a result set with WriteResponse emits an opening
bracket and newline, each row object terminated by a newline with a comma
prefixed to every row object after the first, and a closing bracket and
newline; the two widget rows of the scenario produce exactly the expected
byte sequence, and a cursor with zero rows produces exactly the bracket
lines. -/
theorem claim_C1_writeResponse_format :
    (∀ (rw : RowsWriter) (rs : Rows),
      rw.JSONValueFunc = none → rw.colNames = none → rw.rowOutBuf = [] →
      rs.scanTargets.length = rs.cols.length →
      (∀ r ∈ rs.rows, r.length = rs.cols.length) →
      rs.iterErr = none →
      (WriteResponse rw rs).2 = none ∧
      (WriteResponse rw rs).1.output
        = rw.output ++ [0x5b, 0x0a] ++ commaJoined rs.cols rs.rows ++ [0x5d, 0x0a])
    ∧ (WriteResponse (NewRowsWriter none) widgetRows).1.output
        = strBytes "[\n\x7b\"widget_id\":\"abc123\",\"name\":\"First One\"\x7d\n,\x7b\"widget_id\":\"def456\",\"name\":\"Next One\"\x7d\n]\n"
    ∧ (WriteResponse (NewRowsWriter none) widgetRows).2 = none
    ∧ (WriteResponse (NewRowsWriter none) emptyWidgetRows).1.output
        = strBytes "[\n]\n"
    ∧ (WriteResponse (NewRowsWriter none) emptyWidgetRows).2 = none := by
  refine ⟨fun rw rs h1 h2 h3 h4 h5 h6 => WriteResponse_output h1 h2 h3 h4 h5 h6,
    by decide, by decide, by decide, by decide⟩

theorem claim_C1_witness :
    (WriteResponse (NewRowsWriter none) widgetRows).2 = none ∧
    (WriteResponse (NewRowsWriter none) widgetRows).1.output
      = [] ++ [0x5b, 0x0a] ++ commaJoined widgetRows.cols widgetRows.rows
          ++ [0x5d, 0x0a] :=
  claim_C1_writeResponse_format.1 (NewRowsWriter none) widgetRows rfl rfl rfl
    (by decide) (by decide) rfl

/-- Claim C2: WriteCommaRows on a fresh writer emits the rows joined with
a comma immediately preceding each of rows 2..N, none before row 1, and
no enclosing brackets: the output is exactly the first rendered row
followed by comma-prefixed renderings of the remaining rows. -/
theorem claim_C2_comma_placement :
    ∀ (rw : RowsWriter) (rs : Rows),
      rw.JSONValueFunc = none → rw.colNames = none → rw.rowOutBuf = [] →
      rs.scanTargets.length = rs.cols.length →
      (∀ r ∈ rs.rows, r.length = rs.cols.length) →
      rs.iterErr = none →
      (WriteCommaRows rw rs).2 = none ∧
      (WriteCommaRows rw rs).1.output = rw.output ++ commaJoined rs.cols rs.rows :=
  fun _ _ h1 h2 h3 h4 h5 h6 => WriteCommaRows_output h1 h2 h3 h4 h5 h6

theorem claim_C2_witness :
    (WriteCommaRows (NewRowsWriter none) widgetRows).2 = none ∧
    (WriteCommaRows (NewRowsWriter none) widgetRows).1.output
      = [] ++ commaJoined widgetRows.cols widgetRows.rows :=
  claim_C2_comma_placement (NewRowsWriter none) widgetRows rfl rfl rfl
    (by decide) (by decide) rfl

/-- The escape-need predicate exactly as the claim words it: any byte
below 0x20, above 0x7e, a double quote, or a backslash forces the general
encoder. -/
def specNeedsEscByte (b : Nat) : Bool :=
  b < 0x20 || 0x7e < b || b == 0x22 || b == 0x5c

/-- Counterexample to claim C3 as stated: the one-byte string 0x7f is
above 0x7e, so the claim requires the general encoder, but the code's
check compares against 0x7f and reports no escaping needed, and
writeValue takes the fast path, emitting the raw byte between quotes. -/
theorem claim_C3_counterexample :
    List.any [0x7f] specNeedsEscByte = true
    ∧ stringNeedsJSONEsc [0x7f] = false
    ∧ (writeValue [] (SqlValue.str [0x7f])).1 = [0x22, 0x7f, 0x22]
    ∧ (writeValue [] (SqlValue.str [0x7f])).2 = none := by decide

/-- Claim C3 amended: the general encoder is required exactly when some
byte is below 0x20, above 0x7f, a double quote, or a backslash (the
threshold is 0x7f, not 0x7e); a string with no such byte is encoded via
the fast path as a quote, the raw bytes, and a quote. -/
theorem claim_C3_escape_check (s buf : List Nat) :
    (stringNeedsJSONEsc s = true
      ↔ ∃ b ∈ s, b < 0x20 ∨ 0x7f < b ∨ b = 0x22 ∨ b = 0x5c)
    ∧ (stringNeedsJSONEsc s = false →
        writeValue buf (SqlValue.str s) = (buf ++ 0x22 :: (s ++ [0x22]), none)) := by
  constructor
  · rw [stringNeedsJSONEsc_eq_any]
    simp [needsEscRune, List.any_eq_true, or_assoc]
  · intro hf
    rw [writeValue_append _ (by rw [valueChunk_str]; exact encStr_ne_nil s)]
    rw [valueChunk_str]
    unfold encStr
    rw [if_neg (by simp [hf])]
    rfl

theorem claim_C3_witness :
    (stringNeedsJSONEsc (strBytes "a\\b") = true
      ∧ ∃ b ∈ strBytes "a\\b", b < 0x20 ∨ 0x7f < b ∨ b = 0x22 ∨ b = 0x5c)
    ∧ (stringNeedsJSONEsc (strBytes "abc") = false
      ∧ writeValue [] (SqlValue.str (strBytes "abc"))
          = ([] ++ 0x22 :: (strBytes "abc" ++ [0x22]), none)) :=
  ⟨⟨by decide, (claim_C3_escape_check (strBytes "a\\b") []).1.mp (by decide)⟩,
   ⟨by decide, (claim_C3_escape_check (strBytes "abc") []).2 (by decide)⟩⟩

/-- Counterexample to claim C4 as stated: 0x3c is printable ASCII and
neither a quote nor a backslash, the fast path emits it raw between
quotes, but the general encoder is an encoding/json encoder with HTML
escaping on (the source never disables it), which emits a <
escape: the outputs differ. -/
theorem claim_C4_counterexample :
    (0x20 ≤ 0x3c ∧ 0x3c ≤ 0x7e ∧ (0x3c : Nat) ≠ 0x22 ∧ (0x3c : Nat) ≠ 0x5c)
    ∧ stringNeedsJSONEsc [0x3c] = false
    ∧ (writeValue [] (SqlValue.str [0x3c])).1 = [0x22, 0x3c, 0x22]
    ∧ goJSONEncodeString [0x3c]
        = [0x22, 0x5c, 0x75, 0x30, 0x30, 0x33, 0x63, 0x22]
    ∧ goJSONEncodeString [0x3c] ≠ [0x22, 0x3c, 0x22] := by decide

/-- Claim C4 amended: for strings of printable-ASCII bytes that are not a
quote, backslash, or one of the HTML-escaped bytes 0x3c, 0x3e, 0x26, the
fast path and the general escaping encoder produce byte-identical
output: both emit exactly the raw bytes between quotes. -/
theorem claim_C4_fast_path_eq (s buf : List Nat)
    (hsafe : ∀ b ∈ s, 0x20 ≤ b ∧ b ≤ 0x7e ∧ b ≠ 0x22 ∧ b ≠ 0x5c
        ∧ b ≠ 0x3c ∧ b ≠ 0x3e ∧ b ≠ 0x26) :
    goJSONEncodeString s = 0x22 :: (s ++ [0x22])
    ∧ stringNeedsJSONEsc s = false
    ∧ writeValue buf (SqlValue.str s) = (buf ++ 0x22 :: (s ++ [0x22]), none) := by
  have hsafe2 : ∀ b ∈ s, b < 0x80 ∧ htmlSafe b = true := by
    intro b hb
    obtain ⟨h1, h2, h3, h4, h5, h6, h7⟩ := hsafe b hb
    refine ⟨by omega, ?_⟩
    unfold htmlSafe
    simp
    omega
  have hesc : stringNeedsJSONEsc s = false := by
    rw [stringNeedsJSONEsc_eq_any, List.any_eq_false]
    intro b hb
    obtain ⟨h1, h2, h3, h4, _, _, _⟩ := hsafe b hb
    unfold needsEscRune
    simp
    omega
  refine ⟨goJSONEncodeString_of_safe s hsafe2, hesc, ?_⟩
  rw [writeValue_append _ (by rw [valueChunk_str]; exact encStr_ne_nil s)]
  rw [valueChunk_str]
  unfold encStr
  rw [if_neg (by simp [hesc])]
  rfl

theorem claim_C4_witness :
    goJSONEncodeString (strBytes "First One") = 0x22 :: (strBytes "First One" ++ [0x22])
    ∧ stringNeedsJSONEsc (strBytes "First One") = false
    ∧ writeValue [] (SqlValue.str (strBytes "First One"))
        = ([] ++ 0x22 :: (strBytes "First One" ++ [0x22]), none) :=
  claim_C4_fast_path_eq (strBytes "First One") [] (by decide)

/-- Claim C5, showing the code bug: the value encoder does produce the
unsupported-type error for a dynamic type outside its dispatch set, but
writeRowFields discards the error of both writeValue calls, so WriteRow
and WriteCommaRow report success and flush a malformed object whose
field has an empty value, instead of surfacing the error. -/
theorem claim_C5_error_discarded :
    (∀ (buf t : List Nat),
      (writeValue buf (SqlValue.other t)).2 = some (WErr.unsupportedWriteValue t))
    ∧ (WriteRow (NewRowsWriter none) unsupportedRows
        [SqlValue.other (strBytes "chan int")]).2 = none
    ∧ (WriteCommaRow (NewRowsWriter none) unsupportedRows
        [SqlValue.other (strBytes "chan int")]).2 = none
    ∧ (WriteRow (NewRowsWriter none) unsupportedRows
        [SqlValue.other (strBytes "chan int")]).1.output
        = strBytes "\x7b\"a\":\x7d\n" := by
  exact ⟨fun buf t => rfl, by decide, by decide, by decide⟩

/-- Claim C6: with a hook present, a skipped column is omitted entirely
(neither name nor value appears, and it contributes no separator), the
comma precedes only columns after the first actually emitted one, and a
row whose columns are all skipped is emitted as an empty object. -/
theorem claim_C6_hook_skip :
    (∀ (h : HookFn) (pairs : List (List Nat × SqlValue)) (buf : List Nat),
      hookErrFree h pairs 0 →
      writeRowFields (some h) pairs 0 false buf
        = (buf ++ hookBodyAux h pairs 0 false, none))
    ∧ (∀ (h : HookFn) (pairs : List (List Nat × SqlValue)) (i : Nat) (df : Bool),
      hookSkipsAll h pairs i → hookBodyAux h pairs i df = [])
    ∧ (WriteRow skipAllWriter hookRows
        [SqlValue.str (strBytes "abc123"), SqlValue.str (strBytes "zzz")]).1.output
        = strBytes "\x7b\x7d\n"
    ∧ (WriteRow skipAllWriter hookRows
        [SqlValue.str (strBytes "abc123"), SqlValue.str (strBytes "zzz")]).2
        = none := by
  refine ⟨fun h pairs buf hfree => writeRowFields_hook h pairs 0 false buf hfree,
    fun h pairs i df hall => hookBodyAux_skipsAll h pairs i df hall,
    by decide, by decide⟩

theorem claim_C6_witness :
    writeRowFields (some skipAllHook) [(strBytes "a", SqlValue.str [])] 0 false []
      = ([] ++ hookBodyAux skipAllHook [(strBytes "a", SqlValue.str [])] 0 false,
         none)
    ∧ hookBodyAux skipAllHook [(strBytes "a", SqlValue.str [])] 0 false = [] :=
  ⟨claim_C6_hook_skip.1 skipAllHook [(strBytes "a", SqlValue.str [])] []
      ⟨rfl, trivial⟩,
   claim_C6_hook_skip.2.1 skipAllHook [(strBytes "a", SqlValue.str [])] 0 false
      ⟨rfl, trivial⟩⟩

/-- Claim C7, showing the code bug: Reset on a writer that has resolved a
one-column result set leaves colNames as an empty non-nil slice, so the
next WriteRow skips resolution (the nil check fails), scans with an empty
target list, and database/sql rejects the scan with an
expected-1-got-0 count error; the writer never re-resolves. -/
theorem claim_C7_reset_broken :
    ((Reset (WriteRow (NewRowsWriter none) oneColRows
        [SqlValue.str (strBytes "x")]).1).colNames = some [])
    ∧ ((Reset (WriteRow (NewRowsWriter none) oneColRows
        [SqlValue.str (strBytes "x")]).1).scanArgs = some [])
    ∧ ((WriteRow (Reset (WriteRow (NewRowsWriter none) oneColRows
          [SqlValue.str (strBytes "x")]).1) oneColRows
          [SqlValue.str (strBytes "x")]).2
        = some (WErr.scanCountMismatch 1 0))
    ∧ ((WriteRow (Reset (WriteRow (NewRowsWriter none) oneColRows
          [SqlValue.str (strBytes "x")]).1) oneColRows
          [SqlValue.str (strBytes "x")]).1.colNames = some []) := by
  decide

/-- Claim C8: WriteResponse applies exactly the Content-Type step to the
response metadata: a sink with no headers stays without headers, a
non-empty caller-chosen Content-Type is never overwritten, an unset
Content-Type is set to application/json without touching any other key,
and the success or failure of WriteResponse never depends on the header
state. -/
theorem claim_C8_content_type :
    (∀ (rw : RowsWriter) (rs : Rows),
      (WriteResponse rw rs).1.header = setContentTypeStep rw.header)
    ∧ setContentTypeStep none = none
    ∧ (∀ h : Headers, headerGet h contentTypeKey ≠ [] →
        setContentTypeStep (some h) = some h)
    ∧ (∀ h : Headers, headerGet h contentTypeKey = [] →
        setContentTypeStep (some h)
          = some (headerSet h contentTypeKey applicationJSON)
        ∧ headerGet (headerSet h contentTypeKey applicationJSON) contentTypeKey
            = applicationJSON
        ∧ ∀ k, k ≠ contentTypeKey →
            headerGet (headerSet h contentTypeKey applicationJSON) k
              = headerGet h k)
    ∧ (∀ (rw : RowsWriter) (rs : Rows) (x : Option Headers),
        (WriteResponse { rw with header := x } rs).2 = (WriteResponse rw rs).2) := by
  refine ⟨WriteResponse_header, rfl, ?_, ?_, WriteResponse_err_irrel⟩
  · intro h hct
    simp only [setContentTypeStep]
    rw [if_neg hct]
  · intro h hct
    refine ⟨?_, headerGet_set_self h contentTypeKey applicationJSON,
      fun k hk => headerGet_set_other h contentTypeKey applicationJSON k hk⟩
    simp only [setContentTypeStep]
    rw [if_pos hct]

theorem claim_C8_witness :
    ((WriteResponse (NewRowsWriter (some [])) emptyWidgetRows).1.header
        = setContentTypeStep (some []))
    ∧ setContentTypeStep (some [])
        = some (headerSet [] contentTypeKey applicationJSON)
    ∧ headerGet (headerSet [] contentTypeKey applicationJSON) contentTypeKey
        = applicationJSON
    ∧ ((WriteResponse { NewRowsWriter none with header := some [] }
          emptyWidgetRows).2
        = (WriteResponse (NewRowsWriter none) emptyWidgetRows).2) :=
  ⟨claim_C8_content_type.1 (NewRowsWriter (some [])) emptyWidgetRows,
   (claim_C8_content_type.2.2.2.1 [] (by decide)).1,
   (claim_C8_content_type.2.2.2.1 [] (by decide)).2.1,
   claim_C8_content_type.2.2.2.2 (NewRowsWriter none) emptyWidgetRows (some [])⟩

/-- Counterexample to claim C9 as stated: a non-nil zero-length plain
byte slice is copied as the empty string, not rendered as the two
bracket characters; only the sql.RawBytes representation gets the
bracket carve-out. -/
theorem claim_C9_counterexample :
    (writeRawJSONValue [] (SqlValue.pbytes (some []))).1 = []
    ∧ (writeRawJSONValue [] (SqlValue.pbytes (some []))).2 = none
    ∧ (writeRawJSONValue [] (SqlValue.pbytes (some []))).1 ≠ [0x5b, 0x5d]
    ∧ (writeRawJSONValue [] (SqlValue.rawBytes (some []))).1 = [0x5b, 0x5d] := by
  decide

/-- Claim C9 amended: in the raw-JSON write path a non-null byte sequence
is copied with no quoting or escaping (trailing newline bytes are trimmed
from the buffer afterwards, so a value not ending in a newline is copied
verbatim); the bracket rendering of a non-nil zero-length sequence
applies only to the sql.RawBytes representation, while a zero-length
plain byte slice contributes nothing. -/
theorem claim_C9_raw_copy (buf bs : List Nat) :
    writeRawJSONValue buf (SqlValue.pbytes (some bs)) = (trimnl (buf ++ bs), none)
    ∧ writeRawJSONValue buf (SqlValue.rawBytes (some bs))
        = (trimnl (buf ++ ((if bs.isEmpty then [0x5b, 0x5d] else []) ++ bs)), none)
    ∧ (bs ≠ [] → bs.getLast? ≠ some 0x0a →
        writeRawJSONValue buf (SqlValue.pbytes (some bs)) = (buf ++ bs, none)
        ∧ writeRawJSONValue buf (SqlValue.rawBytes (some bs)) = (buf ++ bs, none)) := by
  refine ⟨rfl, rfl, ?_⟩
  intro hne hlast
  have hbs : bs.dropLast ++ [bs.getLast hne] = bs := List.dropLast_append_getLast hne
  have hc : bs.getLast hne ≠ 0x0a := by
    intro hc
    exact hlast (by rw [List.getLast?_eq_getLast bs hne, hc])
  have htr : trimnl (buf ++ bs) = buf ++ bs := by
    rw [← hbs]
    rw [show buf ++ (bs.dropLast ++ [bs.getLast hne])
        = (buf ++ bs.dropLast) ++ [bs.getLast hne] by simp]
    rw [trimnl_snoc_of_ne hc]
  constructor
  · unfold writeRawJSONValue
    rw [show (writeRawJSONValueRaw (SqlValue.pbytes (some bs))).1 = bs from rfl, htr]
    rfl
  · unfold writeRawJSONValue
    rw [show (writeRawJSONValueRaw (SqlValue.rawBytes (some bs))).1
        = (if bs.isEmpty then [0x5b, 0x5d] else []) ++ bs from rfl]
    rw [if_neg (by simp [hne]), List.nil_append, htr]
    rfl

theorem claim_C9_witness :
    writeRawJSONValue [] (SqlValue.pbytes (some (strBytes "\x7b\x7d")))
      = ([] ++ strBytes "\x7b\x7d", none)
    ∧ writeRawJSONValue [] (SqlValue.rawBytes (some (strBytes "\x7b\x7d")))
      = ([] ++ strBytes "\x7b\x7d", none) :=
  (claim_C9_raw_copy [] (strBytes "\x7b\x7d")).2.2 (by decide) (by decide)

/-- Claim C10: on a writer that has not yet resolved its columns, the
comma flag passed to scanRowArgs is only consulted on the already-resolved
branch, so WriteCommaRow and WriteRow produce identical results: the
first row written by a fresh writer never receives a leading comma. -/
theorem claim_C10_first_row_eq (rw : RowsWriter) (rs : Rows)
    (cur : List SqlValue) (hcols : rw.colNames = none) :
    WriteCommaRow rw rs cur = WriteRow rw rs cur := by
  unfold WriteCommaRow WriteRow scanRowArgs
  rw [hcols]

theorem claim_C10_witness :
    (NewRowsWriter none).colNames = none
    ∧ WriteCommaRow (NewRowsWriter none) oneColRows [SqlValue.str (strBytes "x")]
        = WriteRow (NewRowsWriter none) oneColRows [SqlValue.str (strBytes "x")] :=
  ⟨rfl, claim_C10_first_row_eq (NewRowsWriter none) oneColRows
    [SqlValue.str (strBytes "x")] rfl⟩

end Sqljsonutil
